import Mathlib

/-!
Verification development for the stock-forecasting GCN pipeline
(`Comparison Models /Graph Based/GCN/gcn.py`).

The Python source is shallowly embedded over exact rationals (`ℚ`):
IEEE floats are modelled by exact rational arithmetic, `NaN` by `none`
in an `Option`, and a raised Python exception by `Except.error`.
Concrete inputs used in theorems are chosen so that the float
computations of the source and the rational computations of the
embedding coincide (dyadic ratios, small integers).
-/

attribute [local semireducible] Rat.inv Rat.mul Rat.add Rat.sub Rat.ofScientific

/-- Decidable equality for `Except`, used to evaluate the embedded
functions on concrete inputs inside proofs. -/
def decEqExcept {ε α : Type} [DecidableEq ε] [DecidableEq α] :
    DecidableEq (Except ε α) := fun a b =>
  match a, b with
  | .error e, .error f =>
    if h : e = f then .isTrue (by rw [h]) else .isFalse (by simp [h])
  | .ok x, .ok y =>
    if h : x = y then .isTrue (by rw [h]) else .isFalse (by simp [h])
  | .error _, .ok _ => .isFalse (by simp)
  | .ok _, .error _ => .isFalse (by simp)

instance {ε α : Type} [DecidableEq ε] [DecidableEq α] :
    DecidableEq (Except ε α) := decEqExcept

namespace Gcn

/-- Arithmetic mean `sum / length` over exact rationals.  Total: it returns
`0` on the empty list (internal helper; the `numpy`-facing `npMean` below
models the `NaN` of an empty mean as `none`). -/
def meanQ (l : List ℚ) : ℚ := l.sum / l.length

/-- Model of `numpy.mean`: the mean of an empty array is `NaN` (= `none`). -/
def npMean (l : List ℚ) : Option ℚ := if l = [] then none else some (meanQ l)

/-- Population variance (divisor `n`), as used by `numpy.var`, `numpy.std`
and `sklearn.preprocessing.StandardScaler`: mean of squared deviations. -/
def popVarQ (l : List ℚ) : ℚ := meanQ (l.map (fun x => (x - meanQ l) ^ 2))

/-- Bessel-corrected variance (divisor `n - 1`), as used by
`torch.Tensor.std` (default `unbiased=True`).  For a list of length `≤ 1`
the rational division by `0` yields the junk value `0`, which the
label-standardization model below treats as the `NaN` case, matching
`torch.std` returning `NaN` there. -/
def sampleVarQ (l : List ℚ) : ℚ :=
  (l.map (fun x => (x - meanQ l) ^ 2)).sum / ((l.length : ℚ) - 1)

/-- Population covariance of two equal-length lists (divisor `n`), the
quantity whose ratio `numpy.corrcoef` forms (the divisors cancel in the
correlation, so using the population normalization is value-equivalent). -/
def covQ (x y : List ℚ) : ℚ :=
  meanQ (List.zipWith (fun a b => (a - meanQ x) * (b - meanQ y)) x y)

/-! ## Graph ingestion and encoding (`nx_to_pyg_data`, gcn.py lines 17-44)

A `networkx` graph is a list of named nodes, each with an attribute
dictionary, plus a list of directed edges between node names. -/

/-- A `networkx` graph as consumed by `nx_to_pyg_data`: named nodes with
numeric attribute dictionaries, and directed edges between node names.
In `networkx` node names are unique dictionary keys. -/
structure NxGraph where
  nodes : List (String × List (String × ℚ))
  edges : List (String × String)
deriving DecidableEq

/-- Model of `data.get(key, 0)` on a node's attribute dictionary followed by
`float(...)`: the attribute's value, defaulting to `0` when absent. -/
def attrGet (attrs : List (String × ℚ)) (key : String) : ℚ :=
  (List.lookup key attrs).getD 0

/-- The five-entry feature row built for each node
(gcn.py lines 24-30): sentiment, daily return, rolling average,
volatility, momentum, each defaulting to `0`. -/
def nodeFeatures (attrs : List (String × ℚ)) : List ℚ :=
  [attrGet attrs "volume_weighted_sentiment",
   attrGet attrs "daily_return",
   attrGet attrs "rolling_avg",
   attrGet attrs "volatility",
   attrGet attrs "momentum"]

/-- The `node_mapping` dictionary: node name to enumeration index
(gcn.py line 33).  Node names are unique in `networkx`, so
first-match lookup in this association list agrees with the Python
dictionary. -/
def nodeMapping (g : NxGraph) : List (String × Nat) :=
  g.nodes.enum.map (fun p => (p.2.1, p.1))

/-- Translating one edge's endpoint names to row indices via
`node_mapping[src], node_mapping[dst]` (gcn.py line 38).  A dictionary
miss raises in Python (`KeyError`); the spec calls this failure
`GraphEncodingError`. -/
def encodeEdge (mapping : List (String × Nat)) (e : String × String) :
    Except String (Nat × Nat) :=
  match List.lookup e.1 mapping, List.lookup e.2 mapping with
  | some i, some j => .ok (i, j)
  | _, _ => .error "GraphEncodingError"

/-- The edge loop of gcn.py lines 36-38: encode edges left to right,
stopping at the first unmapped endpoint. -/
def encodeEdges (mapping : List (String × Nat)) :
    List (String × String) → Except String (List (Nat × Nat))
  | [] => .ok []
  | e :: es =>
    match encodeEdge mapping e with
    | .error err => .error err
    | .ok p =>
      match encodeEdges mapping es with
      | .error err => .error err
      | .ok ps => .ok (p :: ps)

/-- The PyTorch-Geometric `Data` produced by `nx_to_pyg_data`:
feature matrix `x` (row per node), `edge_index` pairs of row indices,
label vector `y`. -/
structure PygData where
  x : List (List ℚ)
  edge_index : List (Nat × Nat)
  y : List ℚ
deriving DecidableEq

/-- Embedding of `nx_to_pyg_data` (gcn.py lines 17-44): build the feature rows and the
labels (`daily_return`) in node-enumeration order, then translate the
edges through `node_mapping`.  Only the edge translation can fail. -/
def nx_to_pyg_data (g : NxGraph) : Except String PygData :=
  match encodeEdges (nodeMapping g) g.edges with
  | .error err => .error err
  | .ok ei =>
    .ok { x := g.nodes.map (fun nd => nodeFeatures nd.2)
        , edge_index := ei
        , y := g.nodes.map (fun nd => attrGet nd.2 "daily_return") }

/-! ## Feature and label normalization (gcn.py lines 49-51)

`StandardScaler.fit_transform` acts column-wise: subtract the column
mean and divide by the column scale, where the scale is the population
standard deviation except that a zero standard deviation is replaced by
`1` (`sklearn`'s `_handle_zeros_in_scale`).  The square root is not
rational, so the standardizers take the standard deviation `s` as an
argument; theorems constrain it by `s ^ 2 = variance` and `0 ≤ s`. -/

/-- Model of `sklearn`'s `_handle_zeros_in_scale`: a zero scale (equivalently, zero
variance `v`) is replaced by `1`; otherwise the scale `s = sqrt v` is
kept. -/
def stdScale (v s : ℚ) : ℚ := if v = 0 then 1 else s

/-- One column of `StandardScaler.fit_transform` (gcn.py line 50):
`(x - mean) / scale` with the guarded scale.  `none` would mean a `NaN`
result (division by a zero scale); the guard makes that unreachable for
a genuine standard deviation `s`. -/
def standardizeColumn (col : List ℚ) (s : ℚ) : Option (List ℚ) :=
  if stdScale (popVarQ col) s = 0 then none
  else some (col.map (fun x => (x - meanQ col) / stdScale (popVarQ col) s))

/-- Label standardization `(y - y.mean()) / y.std()` (gcn.py line 51).
Unlike the feature scaler there is no zero guard: a zero standard
deviation `s` makes every entry `NaN` (= `none`). -/
def standardizeLabels (y : List ℚ) (s : ℚ) : Option (List ℚ) :=
  if s = 0 then none else some (y.map (fun x => (x - meanQ y) / s))

/-! ## Partitioner (`split_data`, gcn.py lines 54-63)

`sklearn.model_selection.train_test_split` is embedded along the code
path the source exercises: a `float` `test_size`, `train_size=None`,
`shuffle=True`, `stratify=None`, and an explicit `random_state`.  The
Mersenne-Twister permutation of `numpy.random.RandomState(seed)` is
modelled by a deterministic seeded Fisher-Yates extraction over a
linear congruential generator; the claims depend only on the shuffle
being a fixed, seed-determined permutation of the index range, which is
proved below (`fyGo_perm`). -/

/-- A linear congruential step standing in for the Mersenne-Twister
stream of `numpy.random.RandomState`. -/
def lcg (s : Nat) : Nat := (1103515245 * s + 12345) % 2147483648

/-- Fisher-Yates extraction: repeatedly draw the element at a
pseudo-random position and recurse on the rest.  `fuel` is the list
length, so the `fuel = 0` case only ever sees `[]`. -/
def fyGo : Nat → Nat → List Nat → List Nat
  | 0, _, l => l
  | _ + 1, _, [] => []
  | fuel + 1, s, a :: rest =>
    (a :: rest).getD (s % (a :: rest).length) 0 ::
      fyGo fuel (lcg s) ((a :: rest).eraseIdx (s % (a :: rest).length))

/-- Model of `numpy.random.RandomState(seed).permutation(n)`: a
deterministic permutation of `range n` driven by the seed. -/
def npPermutation (seed n : Nat) : List Nat := fyGo n (lcg seed) (List.range n)

/-- Ceiling of a rational, via floor division on numerator and
denominator (`math.ceil` on the exact value). -/
def ratCeil (q : ℚ) : Int := Int.fdiv (q.num + q.den - 1) q.den

/-- Python `int(...)` applied to a float: truncation toward zero. -/
def pyInt (q : ℚ) : Int := Int.tdiv q.num q.den

/-- Embedding of `sklearn.model_selection._validate_shuffle_split` for a `float`
`test_size` and `train_size=None`: reject `test_size` outside `(0, 1)`,
set `n_test = ceil(test_size * n)`, `n_train = n - n_test`, and reject
an empty train set. -/
def validate_shuffle_split (n : Nat) (testSize : ℚ) :
    Except String (Nat × Nat) :=
  if testSize ≤ 0 ∨ 1 ≤ testSize then
    .error "ValueError: test_size out of range"
  else
    let nTest := (ratCeil (testSize * n)).toNat
    let nTrain := n - nTest
    if nTrain = 0 then .error "ValueError: resulting train set is empty"
    else .ok (nTrain, nTest)

/-- Embedding of `sklearn.model_selection.train_test_split` on one array of `Nat`
(the code only ever splits index arrays), with a `float` `test_size`.
`randomState = some s` is `random_state=s` in the source; `none` would
fall back to the ambient process random state, modelled by the extra
`env` argument.  The test block is the first `n_test` entries of the
permutation, the train block the next `n_train`, and the function
returns `(train, test)` as elements of `arr` at those positions. -/
def train_test_split (arr : List Nat) (testSize : ℚ)
    (randomState : Option Nat) (env : Nat) :
    Except String (List Nat × List Nat) :=
  match validate_shuffle_split arr.length testSize with
  | .error err => .error err
  | .ok (nTrain, nTest) =>
    let perm := npPermutation (randomState.getD env) arr.length
    .ok (((perm.drop nTest).take nTrain).map (fun i => arr.getD i 0),
         (perm.take nTest).map (fun i => arr.getD i 0))

/-- Embedding of `split_data` (gcn.py lines 54-63): split `range n` into train and a
pool with `test_size = 1 - train_ratio`, then split the pool into
validation and test with
`test_size = (len(pool) - int(val_ratio * n)) / len(pool)`.
Both calls pass the hard-coded `random_state=42`; `env` is the ambient
process random state, which the function therefore never consults.
(When the pool is empty Python raises `ZeroDivisionError`; the rational
division then yields `test_size = 0`, which errors in
`validate_shuffle_split` as well — and that case is unreachable since a
successful first split always has a nonempty test block.) -/
def split_data (env : Nat) (numNodes : Nat) (trainFrac valFrac : ℚ) :
    Except String (List Nat × List Nat × List Nat) :=
  match train_test_split (List.range numNodes) (1 - trainFrac) (some 42) env with
  | .error err => .error err
  | .ok (trainIdx, pool) =>
    let v : Int := pyInt (valFrac * numNodes)
    let ts : ℚ := ((pool.length : ℚ) - v) / (pool.length : ℚ)
    match train_test_split pool ts (some 42) env with
    | .error err => .error err
    | .ok (valIdx, testIdx) => .ok (trainIdx, valIdx, testIdx)

/-! ## Trainer (`train_model`, gcn.py lines 96-113) -/

/-- Tensor fancy-indexing `l[idx]` by an index list. -/
def select (l : List ℚ) (idx : List Nat) : List ℚ := idx.map (fun i => l.getD i 0)

/-- Model of `nn.MSELoss()` with the default mean reduction.  On empty tensors
PyTorch emits a warning and returns `NaN` (= `none`); it does not raise. -/
def mseLossQ (pred target : List ℚ) : Option ℚ :=
  npMean (List.zipWith (fun p t => (p - t) ^ 2) pred target)

/-- Abstraction of the `EnhancedGCN` module together with its Adam
optimizer and learning-rate scheduler, exposing exactly what the
training loop consumes.  `forward θ mode` is the full-graph
`model(data.x, data.edge_index).squeeze()` at parameter-and-optimizer
state `θ` (`mode = true` is `model.train()`, dropout active;
`mode = false` is `model.eval()`).  `update θ preds targets` is the
state transition performed by
`loss.backward(); optimizer.step(); scheduler.step()` where `loss` is
the MSE between `preds` and `targets` — the train-row predictions and
labels are the only data that reach the update. -/
structure TrainerModel (Θ : Type) where
  forward : Θ → Bool → List ℚ
  update : Θ → List ℚ → List ℚ → Θ

/-- One epoch's parameter transition (gcn.py lines 102-107): forward in
train mode, then backward/step/scheduler on the train-row MSE. -/
def epochUpdate {Θ : Type} (M : TrainerModel Θ) (y : List ℚ)
    (trainIdx : List Nat) (θ : Θ) : Θ :=
  M.update θ (select (M.forward θ true) trainIdx) (select y trainIdx)

/-- Embedding of `train_model` (gcn.py lines 96-113).  Each epoch: one train-mode
forward pass, train-row MSE, parameter update, and then — under
`model.eval()` and `torch.no_grad()` — the validation-row MSE of the
SAME pre-update `output` tensor (the source indexes the existing tensor
and runs no second forward pass).  Returns the final state and the
per-epoch `(train loss, validation loss)` history.  There is no
emptiness check on any split. -/
def train_model {Θ : Type} (M : TrainerModel Θ) (y : List ℚ)
    (trainIdx valIdx : List Nat) : Nat → Θ → Θ × List (Option ℚ × Option ℚ)
  | 0, θ => (θ, [])
  | e + 1, θ =>
    let output := M.forward θ true
    let loss := mseLossQ (select output trainIdx) (select y trainIdx)
    let θ' := M.update θ (select output trainIdx) (select y trainIdx)
    let valLoss := mseLossQ (select output valIdx) (select y valIdx)
    let rest := train_model M y trainIdx valIdx e θ'
    (rest.1, (loss, valLoss) :: rest.2)

/-- The pre-update state at the start of (0-based) epoch `k`: the
`k`-fold iterate of the epoch transition.  Note it does not depend on
the validation split. -/
def paramsAt {Θ : Type} (M : TrainerModel Θ) (y : List ℚ)
    (trainIdx : List Nat) (θ₀ : Θ) (k : Nat) : Θ :=
  (epochUpdate M y trainIdx)^[k] θ₀

/-- A minimal concrete instance of the abstract trainer, used to
evaluate the training loop on concrete inputs: one rational parameter,
forward output `[θ, θ]` over a two-node graph, update `θ + 1`. -/
def cmModel : TrainerModel ℚ :=
  { forward := fun θ _ => [θ, θ], update := fun θ _ _ => θ + 1 }

/-! ## Evaluator (`evaluate_model`, gcn.py lines 116-145) -/

/-- Model of `np.sign`. -/
def npSign (x : ℚ) : ℚ := if x < 0 then -1 else if x = 0 then 0 else 1

/-- Model of `mean_absolute_error(true_values[test], predictions[test])`. -/
def maeQ (t p : List ℚ) : Option ℚ :=
  npMean (List.zipWith (fun a b => |a - b|) t p)

/-- Model of `mean_squared_error(...)`.  The reported RMSE is its square root,
so RMSE is `0` exactly when this is `some 0`. -/
def mseQ (t p : List ℚ) : Option ℚ :=
  npMean (List.zipWith (fun a b => (a - b) ^ 2) t p)

/-- Model of `np.mean(np.abs((t - p) / t)) * 100` (MAPE).  A zero true value
makes the float result `NaN`/`inf`, modelled as `none`. -/
def mapeQ (t p : List ℚ) : Option ℚ :=
  if (0 : ℚ) ∈ t then none
  else (npMean (List.zipWith (fun a b => |(a - b) / a|) t p)).map (· * 100)

/-- Model of `l[1:] - l[:-1]`: consecutive differences. -/
def consecDiffs (l : List ℚ) : List ℚ :=
  List.zipWith (fun nxt prv => nxt - prv) (l.drop 1) l

/-- Elementwise `np.sign(a) == np.sign(b)` as the 0/1 array that
`np.mean` then averages. -/
def signMatches (a b : List ℚ) : List ℚ :=
  List.zipWith (fun x y => if npSign x = npSign y then (1 : ℚ) else 0) a b

/-- Directional accuracy before the `* 100` (gcn.py lines 123-126):
mean sign agreement of consecutive prediction deltas and truth deltas.
For a single-row test split both delta arrays are empty and `np.mean`
of an empty array is `NaN` (= `none`), with a runtime warning but no
exception. -/
def dirAccQ (t p : List ℚ) : Option ℚ :=
  npMean (signMatches (consecDiffs p) (consecDiffs t))

/-- The `Directional Accuracy (%)` entry of the metrics dict. -/
def dirAccPctQ (t p : List ℚ) : Option ℚ := (dirAccQ t p).map (· * 100)

/-- Model of `returns = predictions[test] - true_values[test]` (gcn.py line 128). -/
def residuals (t p : List ℚ) : List ℚ := List.zipWith (fun a b => b - a) t p

/-- Sharpe ratio (gcn.py line 129): `np.mean(returns) / np.std(returns)`
guarded by `if np.std(returns) != 0 else 0`.  `np.std` is the square
root of the population variance, so the guard is `popVarQ ≠ 0` and the
standard deviation `s` enters as a parameter constrained by theorems.
An empty test split would give `NaN` (= `none`). -/
def sharpeQ (t p : List ℚ) (s : ℚ) : Option ℚ :=
  if residuals t p = [] then none
  else if popVarQ (residuals t p) = 0 then some 0
  else some (meanQ (residuals t p) / s)

/-- Model of `np.corrcoef(predictions[test], true_values[test])[0, 1]`
(gcn.py line 131): Pearson correlation; `NaN` (= `none`) when either
input has zero variance, and for single-element inputs (Bessel divisor
zero in `np.cov`).  The standard deviations enter as parameters
`sx, sy` constrained by `sx ^ 2 = popVarQ x` etc.; the normalization
divisors cancel between numerator and denominator, so the population
forms give the same value as `numpy`'s Bessel-corrected ones. -/
def pearsonQ (x y : List ℚ) (sx sy : ℚ) : Option ℚ :=
  if x = [] then none
  else if sx * sy = 0 then none
  else some (covQ x y / (sx * sy))

/-- Hit rate (gcn.py lines 133-135): percentage of same-position sign
agreement between predictions and truths. -/
def hitRatePctQ (t p : List ℚ) : Option ℚ :=
  (npMean (signMatches p t)).map (· * 100)

/-! ## Helper lemmas about the shuffle and the splits -/

theorem getD_cons_eraseIdx_perm :
    ∀ (l : List Nat) (i : Nat), i < l.length →
      (l.getD i 0 :: l.eraseIdx i).Perm l
  | a :: rest, 0, _ => by simp
  | a :: rest, i + 1, h => by
    have ih := getD_cons_eraseIdx_perm rest i (by simpa using h)
    simp only [List.getD_cons_succ, List.eraseIdx_cons_succ]
    exact (List.Perm.swap a (rest.getD i 0) (rest.eraseIdx i)).trans (ih.cons a)

theorem fyGo_perm :
    ∀ (fuel s : Nat) (l : List Nat), l.length ≤ fuel → (fyGo fuel s l).Perm l
  | 0, _, l, _ => by simp [fyGo]
  | _ + 1, _, [], _ => by simp [fyGo]
  | fuel + 1, s, a :: rest, h => by
    have hi : s % (a :: rest).length < (a :: rest).length :=
      Nat.mod_lt _ (by simp)
    have hlen : ((a :: rest).eraseIdx (s % (a :: rest).length)).length ≤ fuel := by
      rw [List.length_eraseIdx]
      simp only [hi, if_true]
      simp only [List.length_cons] at h ⊢
      omega
    have ih := fyGo_perm fuel (lcg s) _ hlen
    exact (ih.cons _).trans (getD_cons_eraseIdx_perm _ _ hi)

/-- The modelled `numpy` shuffle is a permutation of the index range. -/
theorem npPermutation_perm (seed n : Nat) :
    (npPermutation seed n).Perm (List.range n) :=
  fyGo_perm n (lcg seed) (List.range n) (by simp)

theorem map_getD_range (l : List Nat) :
    (List.range l.length).map (fun i => l.getD i 0) = l := by
  apply List.ext_getElem (by simp)
  intro i h₁ h₂
  simp only [List.getElem_map, List.getElem_range]
  exact List.getD_eq_getElem l 0 h₂

/-- A successful `train_test_split` call returns, in some order, exactly the
elements of its input array: `test ++ train` is a permutation of `arr`. -/
theorem train_test_split_ok_perm {arr : List Nat} {testSize : ℚ}
    {rs : Option Nat} {env : Nat} {tr te : List Nat}
    (h : train_test_split arr testSize rs env = .ok (tr, te)) :
    (te ++ tr).Perm arr := by
  unfold train_test_split at h
  cases hv : validate_shuffle_split arr.length testSize with
  | error e => rw [hv] at h; exact absurd h (by simp)
  | ok p =>
    obtain ⟨nTrain, nTest⟩ := p
    rw [hv] at h
    simp only [Except.ok.injEq, Prod.mk.injEq] at h
    obtain ⟨htr, hte⟩ := h
    unfold validate_shuffle_split at hv
    by_cases hrange : testSize ≤ 0 ∨ 1 ≤ testSize
    · rw [if_pos hrange] at hv; exact absurd hv (by simp)
    · rw [if_neg hrange] at hv
      by_cases hz : arr.length - (ratCeil (testSize * arr.length)).toNat = 0
      · rw [if_pos hz] at hv; exact absurd hv (by simp)
      · rw [if_neg hz] at hv
        simp only [Except.ok.injEq, Prod.mk.injEq] at hv
        obtain ⟨hnTrain, hnTest⟩ := hv
        set perm := npPermutation (rs.getD env) arr.length with hperm
        have hpl : perm.length = arr.length :=
          (npPermutation_perm (rs.getD env) arr.length).length_eq.trans
            (by simp)
        have hdrop : (perm.drop nTest).length = nTrain := by
          rw [List.length_drop, hpl, ← hnTrain, ← hnTest]
        have htake : (perm.drop nTest).take nTrain = perm.drop nTest := by
          rw [← hdrop, List.take_length]
        rw [← htr, ← hte, htake, ← List.map_append, List.take_append_drop]
        have h1 : (perm.map (fun i => arr.getD i 0)).Perm
            ((List.range arr.length).map (fun i => arr.getD i 0)) :=
          (npPermutation_perm (rs.getD env) arr.length).map _
        rw [map_getD_range] at h1
        exact h1

/-- A successful `split_data` call partitions `range n`:
`train ++ val ++ test` is a permutation of the full index range. -/
theorem split_data_ok_perm {env n : Nat} {trainFrac valFrac : ℚ}
    {t v te : List Nat}
    (h : split_data env n trainFrac valFrac = .ok (t, v, te)) :
    (t ++ (v ++ te)).Perm (List.range n) := by
  unfold split_data at h
  cases h1 : train_test_split (List.range n) (1 - trainFrac) (some 42) env with
  | error e => rw [h1] at h; exact absurd h (by simp)
  | ok p =>
    obtain ⟨trainIdx, pool⟩ := p
    rw [h1] at h
    simp only at h
    cases h2 : train_test_split pool
        (((pool.length : ℚ) - (pyInt (valFrac * n) : ℚ)) / (pool.length : ℚ))
        (some 42) env with
    | error e => rw [h2] at h; exact absurd h (by simp)
    | ok q =>
      obtain ⟨valIdx, testIdx⟩ := q
      rw [h2] at h
      simp only [Except.ok.injEq, Prod.mk.injEq] at h
      obtain ⟨ht, hv, hte⟩ := h
      have p1 : (pool ++ trainIdx).Perm (List.range n) := train_test_split_ok_perm h1
      have p2 : (testIdx ++ valIdx).Perm pool := train_test_split_ok_perm h2
      have p3 : (valIdx ++ testIdx).Perm pool := (List.perm_append_comm).trans p2
      rw [← ht, ← hv, ← hte]
      exact (List.Perm.append_left trainIdx p3).trans
        ((List.perm_append_comm).trans p1)

/-! ## Helper lemmas about means and variances -/

theorem length_cast_ne_zero {l : List ℚ} (h : l ≠ []) : ((l.length : ℚ)) ≠ 0 := by
  have := List.length_pos.mpr h
  positivity

theorem sum_map_affine (l : List ℚ) (a b : ℚ) :
    (l.map (fun x => a * x + b)).sum = a * l.sum + l.length * b := by
  induction l with
  | nil => simp
  | cons x xs ih =>
    simp only [List.map_cons, List.sum_cons, ih, List.length_cons]
    push_cast
    ring

theorem meanQ_map_affine (l : List ℚ) (a b : ℚ) (h : l ≠ []) :
    meanQ (l.map (fun x => a * x + b)) = a * meanQ l + b := by
  have hl := length_cast_ne_zero h
  unfold meanQ
  rw [List.length_map, sum_map_affine]
  field_simp
  ring

theorem sum_zero_of_nonneg_all_zero {l : List ℚ} (h0 : ∀ x ∈ l, 0 ≤ x)
    (hs : l.sum = 0) : ∀ x ∈ l, x = 0 := by
  induction l with
  | nil => simp
  | cons a as ih =>
    have ha : 0 ≤ a := h0 a (by simp)
    have has : 0 ≤ as.sum := List.sum_nonneg (fun x hx => h0 x (by simp [hx]))
    have hsum : a + as.sum = 0 := by simpa using hs
    have ha0 : a = 0 := by linarith
    intro x hx
    rcases List.mem_cons.mp hx with rfl | hx'
    · exact ha0
    · exact ih (fun z hz => h0 z (by simp [hz])) (by linarith) x hx'

theorem eq_mean_of_popVarQ_zero {l : List ℚ} (h : popVarQ l = 0) :
    ∀ x ∈ l, x = meanQ l := by
  rcases eq_or_ne l [] with rfl | hne
  · simp
  · have hl := length_cast_ne_zero hne
    unfold popVarQ meanQ at h
    rw [List.length_map] at h
    have hsum : (l.map (fun x => (x - meanQ l) ^ 2)).sum = 0 :=
      (div_eq_zero_iff.mp h).resolve_right hl
    intro x hx
    have hz := sum_zero_of_nonneg_all_zero
      (by rintro y hy
          obtain ⟨z, _, rfl⟩ := List.mem_map.mp hy
          positivity)
      hsum ((x - meanQ l) ^ 2) (List.mem_map_of_mem _ hx)
    have := sq_eq_zero_iff.mp hz
    linarith [sub_eq_zero.mp this]

theorem npMean_of_all_zero {l : List ℚ} (hne : l ≠ []) (h0 : ∀ x ∈ l, x = 0) :
    npMean l = some 0 := by
  unfold npMean meanQ
  rw [if_neg hne, List.sum_eq_zero h0, zero_div]

theorem sum_eq_length_of_all_one {l : List ℚ} (h1 : ∀ x ∈ l, x = 1) :
    l.sum = l.length := by
  induction l with
  | nil => simp
  | cons a as ih =>
    have ha : a = 1 := h1 a (by simp)
    have := ih (fun x hx => h1 x (by simp [hx]))
    simp only [List.sum_cons, this, ha, List.length_cons]
    push_cast
    ring

theorem npMean_of_all_one {l : List ℚ} (hne : l ≠ []) (h1 : ∀ x ∈ l, x = 1) :
    npMean l = some 1 := by
  unfold npMean meanQ
  rw [if_neg hne, sum_eq_length_of_all_one h1,
    div_self (length_cast_ne_zero hne)]

theorem popVarQ_map_affine (l : List ℚ) (a b : ℚ) (h : l ≠ []) :
    popVarQ (l.map (fun x => a * x + b)) = a ^ 2 * popVarQ l := by
  unfold popVarQ
  rw [meanQ_map_affine l a b h, List.map_map]
  have e1 : ((fun x => (x - (a * meanQ l + b)) ^ 2) ∘ (fun x => a * x + b))
      = (fun y => a ^ 2 * y + 0) ∘ (fun x => (x - meanQ l) ^ 2) := by
    funext x
    simp only [Function.comp]
    ring
  rw [e1, ← List.map_map,
    meanQ_map_affine _ _ _ (by simpa using h)]
  ring

/-! ## Helper lemmas about the training loop -/

theorem train_model_fst {Θ : Type} (M : TrainerModel Θ) (y : List ℚ)
    (trainIdx valIdx : List Nat) :
    ∀ (E : Nat) (θ₀ : Θ),
      (train_model M y trainIdx valIdx E θ₀).1 = paramsAt M y trainIdx θ₀ E
  | 0, θ₀ => rfl
  | E + 1, θ₀ => by
    show (train_model M y trainIdx valIdx E (epochUpdate M y trainIdx θ₀)).1 = _
    rw [train_model_fst M y trainIdx valIdx E (epochUpdate M y trainIdx θ₀)]
    unfold paramsAt
    rw [Function.iterate_succ_apply]

theorem train_model_hist {Θ : Type} (M : TrainerModel Θ) (y : List ℚ)
    (trainIdx valIdx : List Nat) (E e : Nat) (θ₀ : Θ) (h : e < E) :
    (train_model M y trainIdx valIdx E θ₀).2.getD e (none, none) =
      (mseLossQ (select (M.forward (paramsAt M y trainIdx θ₀ e) true) trainIdx)
         (select y trainIdx),
       mseLossQ (select (M.forward (paramsAt M y trainIdx θ₀ e) true) valIdx)
         (select y valIdx)) := by
  induction E generalizing e θ₀ with
  | zero => omega
  | succ E ih =>
    cases e with
    | zero =>
      show ((_, _) :: (train_model M y trainIdx valIdx E _).2).getD 0 _ = _
      rw [List.getD_cons_zero]
      rfl
    | succ e =>
      have h' : e < E := Nat.lt_of_succ_lt_succ h
      show ((_, _) :: (train_model M y trainIdx valIdx E
        (epochUpdate M y trainIdx θ₀)).2).getD (e + 1) _ = _
      rw [List.getD_cons_succ, ih e (epochUpdate M y trainIdx θ₀) h']
      unfold paramsAt
      rw [Function.iterate_succ_apply]

theorem train_model_hist_length {Θ : Type} (M : TrainerModel Θ) (y : List ℚ)
    (trainIdx valIdx : List Nat) :
    ∀ (E : Nat) (θ₀ : Θ),
      (train_model M y trainIdx valIdx E θ₀).2.length = E
  | 0, _ => rfl
  | E + 1, θ₀ => by
    show ((_, _) :: (train_model M y trainIdx valIdx E _).2).length = E + 1
    rw [List.length_cons]
    exact congrArg (· + 1) (train_model_hist_length M y trainIdx valIdx E _)

/-! ## Helper lemmas about edge encoding -/

theorem encodeEdge_error_msg {m : List (String × Nat)} {e : String × String}
    {err : String} (h : encodeEdge m e = .error err) :
    err = "GraphEncodingError" := by
  unfold encodeEdge at h
  cases h1 : List.lookup e.1 m <;> cases h2 : List.lookup e.2 m <;>
    rw [h1, h2] at h <;> simp_all

theorem encodeEdge_ok {m : List (String × Nat)} {e : String × String}
    {p : Nat × Nat} (h : encodeEdge m e = .ok p) :
    List.lookup e.1 m = some p.1 ∧ List.lookup e.2 m = some p.2 := by
  unfold encodeEdge at h
  cases h1 : List.lookup e.1 m <;> cases h2 : List.lookup e.2 m <;>
      rw [h1, h2] at h
  · exact absurd h (by simp)
  · exact absurd h (by simp)
  · exact absurd h (by simp)
  · rw [Except.ok.injEq] at h
    subst h
    simp_all

theorem encodeEdges_ok_forall₂ {m : List (String × Nat)} :
    ∀ {es : List (String × String)} {ps : List (Nat × Nat)},
      encodeEdges m es = .ok ps →
      List.Forall₂ (fun (e : String × String) (p : Nat × Nat) =>
        List.lookup e.1 m = some p.1 ∧ List.lookup e.2 m = some p.2) es ps
  | [], ps, h => by
    simp only [encodeEdges, Except.ok.injEq] at h
    rw [← h]
    exact List.Forall₂.nil
  | e :: es, ps, h => by
    unfold encodeEdges at h
    cases he : encodeEdge m e with
    | error err => rw [he] at h; exact absurd h (by simp)
    | ok p =>
      rw [he] at h
      cases hes : encodeEdges m es with
      | error err => rw [hes] at h; exact absurd h (by simp)
      | ok ps' =>
        rw [hes] at h
        simp only [Except.ok.injEq] at h
        rw [← h]
        exact List.Forall₂.cons (encodeEdge_ok he) (encodeEdges_ok_forall₂ hes)

theorem encodeEdges_missing {m : List (String × Nat)} {u v : String} :
    ∀ {es : List (String × String)}, (u, v) ∈ es →
      (List.lookup u m = none ∨ List.lookup v m = none) →
      encodeEdges m es = .error "GraphEncodingError"
  | e :: es, hmem, hmiss => by
    unfold encodeEdges
    rcases List.mem_cons.mp hmem with rfl | htail
    · have : encodeEdge m (u, v) = .error "GraphEncodingError" := by
        unfold encodeEdge
        rcases hmiss with h | h
        · rw [h]
        · rw [h]
          cases List.lookup (u, v).1 m <;> rfl
      rw [this]
    · cases he : encodeEdge m e with
      | error err => rw [encodeEdge_error_msg he]
      | ok p => rw [encodeEdges_missing htail hmiss]

theorem map_zero_replicate (l : List ℚ) :
    l.map (fun _ => (0 : ℚ)) = List.replicate l.length 0 := by
  induction l with
  | nil => rfl
  | cons a as ih => simp [ih, List.replicate_succ]

theorem popVarQ_singleton (x : ℚ) : popVarQ [x] = 0 := by
  simp [popVarQ, meanQ]

theorem train_model_succ {Θ : Type} (M : TrainerModel Θ) (y : List ℚ)
    (trainIdx valIdx : List Nat) (E : Nat) (θ₀ : Θ) :
    train_model M y trainIdx valIdx (E + 1) θ₀ =
      ((train_model M y trainIdx valIdx E (epochUpdate M y trainIdx θ₀)).1,
       (mseLossQ (select (M.forward θ₀ true) trainIdx) (select y trainIdx),
        mseLossQ (select (M.forward θ₀ true) valIdx) (select y valIdx)) ::
       (train_model M y trainIdx valIdx E (epochUpdate M y trainIdx θ₀)).2) :=
  rfl

/-! # The claims

Each claim `C1`–`C10` about the pipeline is settled by exactly one
theorem below, together with a concrete witness where the theorem
carries hypotheses and a concrete counterexample where the claim as
originally stated fails on the code. -/

/-- C1 (amended): in every epoch of `train_model` the logged validation
loss is computed, without gradient tracking, from the SAME train-mode
forward output used for that epoch's training loss — i.e. at the
pre-update parameters `paramsAt … e` — not from a fresh forward pass
after the update; and the final parameters equal the `E`-fold iterate
of an update that never reads the validation split, so the validation
split never influences any parameter update. -/
theorem C1_val_loss_stale_and_val_independent {Θ : Type}
    (M : TrainerModel Θ) (y : List ℚ) (trainIdx valIdx valIdx' : List Nat)
    (E e : Nat) (θ₀ : Θ) (he : e < E) :
    (train_model M y trainIdx valIdx E θ₀).2.getD e (none, none) =
      (mseLossQ (select (M.forward (paramsAt M y trainIdx θ₀ e) true) trainIdx)
         (select y trainIdx),
       mseLossQ (select (M.forward (paramsAt M y trainIdx θ₀ e) true) valIdx)
         (select y valIdx)) ∧
    (train_model M y trainIdx valIdx E θ₀).1 = paramsAt M y trainIdx θ₀ E ∧
    (train_model M y trainIdx valIdx E θ₀).1 =
      (train_model M y trainIdx valIdx' E θ₀).1 :=
  ⟨train_model_hist M y trainIdx valIdx E e θ₀ he,
   train_model_fst M y trainIdx valIdx E θ₀,
   (train_model_fst M y trainIdx valIdx E θ₀).trans
     (train_model_fst M y trainIdx valIdx' E θ₀).symm⟩

/-- Witness for C1: one epoch of the concrete trainer instance from
parameter `0`. -/
theorem C1_witness :
    (train_model cmModel [0, 0] [0] [1] 1 0).2.getD 0 (none, none) =
      (mseLossQ (select (cmModel.forward (paramsAt cmModel [0, 0] [0] 0 0) true) [0])
         (select [0, 0] [0]),
       mseLossQ (select (cmModel.forward (paramsAt cmModel [0, 0] [0] 0 0) true) [1])
         (select [0, 0] [1])) ∧
    (train_model cmModel [0, 0] [0] [1] 1 0).1 = paramsAt cmModel [0, 0] [0] 0 1 ∧
    (train_model cmModel [0, 0] [0] [1] 1 0).1 =
      (train_model cmModel [0, 0] [0] [] 1 0).1 :=
  C1_val_loss_stale_and_val_independent cmModel [0, 0] [0] [1] [] 1 0 0
    (by decide)

/-- C1 counterexample: in the concrete instance the recorded epoch-1
validation loss is `some 0`, whereas the validation loss of a fresh
eval-mode forward pass at the post-update parameters is `some 1`:
`train_model` does not recompute the validation loss after the
parameter update. -/
theorem C1_counterexample :
    ((train_model cmModel [0, 0] [0] [1] 1 0).2.getD 0 (none, none)).2 ≠
      mseLossQ
        (select (cmModel.forward (paramsAt cmModel [0, 0] [0] 0 1) false) [1])
        (select [0, 0] [1]) := by decide

/-- C2 (amended): whenever `split_data` succeeds, its result is
independent of the ambient random state — repeated calls return the
same three index lists — and the three lists partition the index range:
their concatenation is a permutation of `range n`, membership in some
split is exactly `i < n`, and the splits are pairwise disjoint.  The
amendment: success is a hypothesis, not a guarantee for every `n ≥ 1`
with in-range ratios, because `train_test_split` raises for small `n`
(see the counterexample at `n = 1`). -/
theorem C2_split_data_partition (env env' n : Nat) (r₁ r₂ : ℚ)
    (t v te : List Nat)
    (h : split_data env n r₁ r₂ = .ok (t, v, te)) :
    split_data env' n r₁ r₂ = .ok (t, v, te) ∧
    (t ++ (v ++ te)).Perm (List.range n) ∧
    (∀ i, (i ∈ t ∨ i ∈ v ∨ i ∈ te) ↔ i < n) ∧
    t.Disjoint v ∧ t.Disjoint te ∧ v.Disjoint te := by
  have hperm := split_data_ok_perm h
  have hdet : split_data env' n r₁ r₂ = split_data env n r₁ r₂ := rfl
  have hnd : (t ++ (v ++ te)).Nodup :=
    hperm.nodup_iff.mpr (List.nodup_range n)
  obtain ⟨hndt, hndvte, hdisj1⟩ := List.nodup_append.mp hnd
  obtain ⟨hndv, hndte, hdisj2⟩ := List.nodup_append.mp hndvte
  obtain ⟨h1, h2⟩ := List.disjoint_append_right.mp hdisj1
  refine ⟨hdet.trans h, hperm, ?_, h1, h2, hdisj2⟩
  intro i
  rw [← List.mem_range (n := n), ← hperm.mem_iff]
  simp [List.mem_append]

/-- Witness for C2: the default configuration at `n = 20`, evaluated
under two different ambient random states. -/
theorem C2_witness :
    split_data 1 20 (7/10) (3/20) =
      .ok ([14, 13, 18, 11, 5, 9, 17, 1, 4, 12, 6, 3, 2, 0],
           [19, 8, 7], [10, 16, 15]) ∧
    (([14, 13, 18, 11, 5, 9, 17, 1, 4, 12, 6, 3, 2, 0] : List Nat) ++
      ([19, 8, 7] ++ [10, 16, 15])).Perm (List.range 20) :=
  ⟨(C2_split_data_partition 0 1 20 (7/10) (3/20)
      [14, 13, 18, 11, 5, 9, 17, 1, 4, 12, 6, 3, 2, 0] [19, 8, 7] [10, 16, 15]
      (by decide)).1,
   (C2_split_data_partition 0 1 20 (7/10) (3/20)
      [14, 13, 18, 11, 5, 9, 17, 1, 4, 12, 6, 3, 2, 0] [19, 8, 7] [10, 16, 15]
      (by decide)).2.1⟩

/-- C2 counterexample: at `n = 1` with admissible ratios (`1/2`, `1/4`
are in `(0,1)` and sum below `1`), `split_data` raises sklearn's
"resulting train set is empty" `ValueError` instead of returning a
partition of the single index. -/
theorem C2_counterexample :
    (0:ℚ) < 1/2 ∧ (0:ℚ) < 1/4 ∧ (1:ℚ)/2 + 1/4 < 1 ∧
    split_data 0 1 (1/2) (1/4) =
      .error "ValueError: resulting train set is empty" := by decide

/-- C3 (amended): when `int(val_ratio * n)` is at least the pool size
left after train assignment, the second `train_test_split` call
receives `test_size ≤ 0` and `split_data` fails with sklearn's
`ValueError`: it does not clip the validation split to the pool.  (No
index is ever assigned to two splits — but because the call fails, not
because of clipping.) -/
theorem C3_split_data_overfull_val_errors (env n : Nat) (r₁ r₂ : ℚ)
    (trainIdx pool : List Nat)
    (h1 : train_test_split (List.range n) (1 - r₁) (some 42) env =
      .ok (trainIdx, pool))
    (hov : (pool.length : Int) ≤ pyInt (r₂ * n)) :
    (split_data env n r₁ r₂).toOption = none := by
  have hts : ((pool.length : ℚ) - ((pyInt (r₂ * n) : Int) : ℚ)) /
      (pool.length : ℚ) ≤ 0 := by
    apply div_nonpos_of_nonpos_of_nonneg
    · have hcast : ((pool.length : Int) : ℚ) ≤ ((pyInt (r₂ * n) : Int) : ℚ) := by
        exact_mod_cast hov
      push_cast at hcast ⊢
      linarith
    · positivity
  have hval : train_test_split pool
      (((pool.length : ℚ) - ((pyInt (r₂ * n) : Int) : ℚ)) / (pool.length : ℚ))
      (some 42) env =
      .error "ValueError: test_size out of range" := by
    unfold train_test_split validate_shuffle_split
    rw [if_pos (Or.inl hts)]
  unfold split_data
  rw [h1]
  simp only [hval]
  rfl

/-- Witness for C3: `n = 8`, `train_ratio = 1/2`, `val_ratio = 3/4`:
the pool after train assignment has 4 elements while
`int(val_ratio * n) = 6`. -/
theorem C3_witness :
    train_test_split (List.range 8) (1 - 1/2) (some 42) 0 =
      .ok ([6, 1, 5, 4], [3, 0, 7, 2]) ∧
    (([3, 0, 7, 2] : List Nat).length : Int) ≤ pyInt ((3:ℚ)/4 * 8) ∧
    (split_data 0 8 (1/2) (3/4)).toOption = none :=
  ⟨by decide, by decide,
   C3_split_data_overfull_val_errors 0 8 (1/2) (3/4) [6, 1, 5, 4] [3, 0, 7, 2]
     (by decide) (by decide)⟩

/-- C3 counterexample: at `n = 8`, `train_ratio = 1/2`,
`val_ratio = 3/4` (so `int(val_ratio * n) = 6 >` pool size `4`),
`split_data` fails with a `ValueError` instead of clipping the
validation split to the pool and leaving the test split empty. -/
theorem C3_counterexample :
    split_data 0 8 (1/2) (3/4) =
      .error "ValueError: test_size out of range" := by decide

/-- C4 (amended): the feature scaler is guarded — a zero-variance
column gets scale `1`, maps to all zeros and never yields `NaN`, and a
nonzero-variance column standardizes to mean `0` and variance `1` — but
the LABEL standardization `(data.y - data.y.mean()) / data.y.std()` has
no such guard: a zero label standard deviation divides by zero and
yields `NaN` (= `none`), not zeros. -/
theorem C4_normalizer_guards (col y : List ℚ) (s r : ℚ)
    (hs : s ^ 2 = popVarQ col) (hr : r ^ 2 = sampleVarQ y) :
    standardizeColumn col s ≠ none ∧
    (popVarQ col = 0 →
      standardizeColumn col s = some (List.replicate col.length 0)) ∧
    (popVarQ col ≠ 0 →
      meanQ ((standardizeColumn col s).getD []) = 0 ∧
      popVarQ ((standardizeColumn col s).getD []) = 1) ∧
    (sampleVarQ y = 0 → standardizeLabels y r = none) := by
  have hguard : stdScale (popVarQ col) s ≠ 0 := by
    unfold stdScale
    by_cases hv : popVarQ col = 0
    · rw [if_pos hv]
      exact one_ne_zero
    · rw [if_neg hv]
      intro hs0
      apply hv
      rw [← hs, hs0]
      ring
  refine ⟨?_, ?_, ?_, ?_⟩
  · unfold standardizeColumn
    rw [if_neg hguard]
    simp
  · intro hv
    have hsc : stdScale (popVarQ col) s = 1 := by
      unfold stdScale
      rw [if_pos hv]
    unfold standardizeColumn
    rw [if_neg hguard, hsc]
    have hmap : col.map (fun x => (x - meanQ col) / 1)
        = col.map (fun _ => (0 : ℚ)) := by
      apply List.map_congr_left
      intro x hx
      rw [eq_mean_of_popVarQ_zero hv x hx]
      simp
    rw [hmap, map_zero_replicate]
  · intro hv
    have hne : col ≠ [] := by
      intro h0
      apply hv
      rw [h0]
      simp [popVarQ, meanQ]
    have hs0 : s ≠ 0 := by
      intro h0
      apply hv
      rw [← hs, h0]
      ring
    have hsc : stdScale (popVarQ col) s = s := by
      unfold stdScale
      rw [if_neg hv]
    unfold standardizeColumn
    rw [if_neg hguard, hsc]
    simp only [Option.getD_some]
    have he : col.map (fun x => (x - meanQ col) / s)
        = col.map (fun x => (1 / s) * x + (-(meanQ col) / s)) := by
      apply List.map_congr_left
      intro x _
      ring
    rw [he]
    constructor
    · rw [meanQ_map_affine col _ _ hne]
      ring
    · rw [popVarQ_map_affine col _ _ hne, ← hs]
      field_simp
  · intro hv
    have hr0 : r = 0 := by
      have h2 : r ^ 2 = 0 := hr.trans hv
      exact (pow_eq_zero_iff two_ne_zero).mp h2
    unfold standardizeLabels
    rw [if_pos hr0]

/-- Witness for C4: feature column `[1, 3]` (variance `1`, standard
deviation `1`) and constant label vector `[5, 5]` (standard deviation
`0`). -/
theorem C4_witness :
    standardizeColumn [1, 3] 1 ≠ none ∧
    (popVarQ [1, 3] = 0 →
      standardizeColumn [1, 3] 1 = some (List.replicate ([(1:ℚ), 3].length) 0)) ∧
    (popVarQ [1, 3] ≠ 0 →
      meanQ ((standardizeColumn [1, 3] 1).getD []) = 0 ∧
      popVarQ ((standardizeColumn [1, 3] 1).getD []) = 1) ∧
    (sampleVarQ [5, 5] = 0 → standardizeLabels [5, 5] 0 = none) :=
  C4_normalizer_guards [1, 3] [5, 5] 1 0 (by decide) (by decide)

/-- C4 counterexample: the constant label vector `[5, 5]` has standard
deviation `0`; the unguarded label standardization yields `NaN`
(= `none`), not the all-zero vector the claim promises. -/
theorem C4_counterexample :
    standardizeLabels [5, 5] 0 ≠ some [0, 0] ∧
    standardizeLabels [5, 5] 0 = none ∧
    (0:ℚ) ^ 2 = sampleVarQ [5, 5] := by decide

/-- C5: every encoded edge pair consists of exactly the row indices that
`node_mapping` assigns to the edge's endpoint names, and encoding an
edge with an endpoint absent from the mapping fails with the
`GraphEncodingError` failure (a `KeyError` on the `node_mapping`
dictionary lookup in the source). -/
theorem C5_edges_translated_via_mapping (g : NxGraph) (d : PygData)
    (u v : String) :
    (nx_to_pyg_data g = .ok d →
      List.Forall₂ (fun (e : String × String) (p : Nat × Nat) =>
        List.lookup e.1 (nodeMapping g) = some p.1 ∧
        List.lookup e.2 (nodeMapping g) = some p.2) g.edges d.edge_index) ∧
    ((u, v) ∈ g.edges →
      (List.lookup u (nodeMapping g) = none ∨
        List.lookup v (nodeMapping g) = none) →
      nx_to_pyg_data g = .error "GraphEncodingError") := by
  constructor
  · intro h
    unfold nx_to_pyg_data at h
    cases he : encodeEdges (nodeMapping g) g.edges with
    | error err => rw [he] at h; exact absurd h (by simp)
    | ok ei =>
      rw [he] at h
      simp only [Except.ok.injEq] at h
      have hd : d.edge_index = ei := by rw [← h]
      rw [hd]
      exact encodeEdges_ok_forall₂ he
  · intro hmem hmiss
    unfold nx_to_pyg_data
    rw [encodeEdges_missing hmem hmiss]

/-- Witness for C5: a two-node graph whose single edge encodes to the
mapped row pair `(0, 1)`, and a one-node graph whose edge references the
unmapped name `"B"` and fails. -/
theorem C5_witness :
    List.Forall₂ (fun (e : String × String) (p : Nat × Nat) =>
      List.lookup e.1 (nodeMapping ⟨[("A", []), ("B", [])], [("A", "B")]⟩) =
        some p.1 ∧
      List.lookup e.2 (nodeMapping ⟨[("A", []), ("B", [])], [("A", "B")]⟩) =
        some p.2) [("A", "B")] [(0, 1)] ∧
    nx_to_pyg_data ⟨[("A", [])], [("A", "B")]⟩ =
      .error "GraphEncodingError" :=
  ⟨(C5_edges_translated_via_mapping ⟨[("A", []), ("B", [])], [("A", "B")]⟩
      ⟨[[0, 0, 0, 0, 0], [0, 0, 0, 0, 0]], [(0, 1)], [0, 0]⟩ "A" "B").1
      (by decide),
   (C5_edges_translated_via_mapping ⟨[("A", [])], [("A", "B")]⟩
      ⟨[], [], []⟩ "A" "B").2 (by decide) (by decide)⟩

/-- C6 (amended): an empty train split does not raise — the source has
no `EmptySplitError` check, and PyTorch's mean-reduction MSE over an
empty selection is `NaN` — so `train_model` runs all `E` epochs to
completion (still applying parameter updates) while logging `NaN`
(= `none`) as every epoch's training loss. -/
theorem C6_empty_train_split_runs_with_nan {Θ : Type} (M : TrainerModel Θ)
    (y : List ℚ) (valIdx : List Nat) (E : Nat) (θ₀ : Θ) :
    (train_model M y [] valIdx E θ₀).2.length = E ∧
    ∀ pr ∈ (train_model M y [] valIdx E θ₀).2, pr.1 = none := by
  refine ⟨train_model_hist_length M y [] valIdx E θ₀, ?_⟩
  induction E generalizing θ₀ with
  | zero =>
    intro pr hpr
    simp [train_model] at hpr
  | succ E ih =>
    intro pr hpr
    rw [train_model_succ] at hpr
    rcases List.mem_cons.mp hpr with rfl | htail
    · rfl
    · exact ih (epochUpdate M y [] θ₀) pr htail

/-- Witness for C6: one epoch of the concrete trainer with an empty
train split. -/
theorem C6_witness :
    (train_model cmModel [0, 0] [] [1] 1 0).2.length = 1 ∧
    ((none, some 0) : Option ℚ × Option ℚ).1 = none :=
  ⟨(C6_empty_train_split_runs_with_nan cmModel [0, 0] [1] 1 0).1,
   (C6_empty_train_split_runs_with_nan cmModel [0, 0] [1] 1 0).2
     (none, some 0) (by decide)⟩

/-- C6 counterexample: with an empty train split the concrete run does
not fail: it completes its epoch, still applies the parameter update
(final parameter `1`), and records a `NaN` (= `none`) training loss —
it proceeds with the undefined loss computation instead of raising
`EmptySplitError`. -/
theorem C6_counterexample :
    train_model cmModel [0, 0] [] [1] 1 0 = (1, [(none, some 0)]) := by decide

/-- C7 (amended): on a size-1 test split the evaluator does not crash
and the Sharpe ratio takes its guarded fallback `some 0`; but
directional accuracy is `np.mean` of an empty comparison array, which
is `NaN` (= `none`), not the defined fallback `0`. -/
theorem C7_singleton_split (a b s : ℚ) :
    dirAccQ [a] [b] = none ∧ sharpeQ [a] [b] s = some 0 := by
  constructor
  · rfl
  · unfold sharpeQ
    rw [if_neg (by simp [residuals])]
    rw [if_pos (by simp [residuals, popVarQ_singleton])]

/-- C7 counterexample: a concrete singleton test split — directional
accuracy is `NaN` (= `none`), not the claimed fallback `0`. -/
theorem C7_counterexample :
    dirAccQ [(1:ℚ)] [1/2] ≠ some 0 ∧ dirAccQ [(1:ℚ)] [1/2] = none := by
  decide

/-- C8 (amended): for a test split with at least two rows, all true
labels nonzero and not all equal, and predictions identical to the true
labels, the evaluator reports MAE `0`, MSE `0` (hence RMSE `= √0 = 0`),
MAPE `0`, directional accuracy `100` %, and information coefficient
`1`.  The amendment adds the size and nonconstancy provisos: a
single-row split makes directional accuracy `NaN`, and a constant split
makes the information coefficient `NaN` (see the counterexample). -/
theorem C8_perfect_predictions (t : List ℚ) (s : ℚ) (hlen : 2 ≤ t.length)
    (hnz : (0:ℚ) ∉ t) (hvar : popVarQ t ≠ 0) (hs : s ^ 2 = popVarQ t) :
    maeQ t t = some 0 ∧ mseQ t t = some 0 ∧ mapeQ t t = some 0 ∧
    dirAccPctQ t t = some 100 ∧ pearsonQ t t s s = some 1 := by
  have hne : t ≠ [] := by
    intro h
    rw [h] at hlen
    simp at hlen
  have hmapne : ∀ (f : ℚ → ℚ), t.map f ≠ [] := by
    intro f h
    exact hne (List.map_eq_nil_iff.mp h)
  refine ⟨?_, ?_, ?_, ?_, ?_⟩
  · unfold maeQ
    rw [List.zipWith_same]
    apply npMean_of_all_zero (hmapne _)
    intro x hx
    obtain ⟨a, _, rfl⟩ := List.mem_map.mp hx
    simp
  · unfold mseQ
    rw [List.zipWith_same]
    apply npMean_of_all_zero (hmapne _)
    intro x hx
    obtain ⟨a, _, rfl⟩ := List.mem_map.mp hx
    simp
  · unfold mapeQ
    rw [if_neg hnz, List.zipWith_same]
    have h0 : npMean (t.map (fun a => |(a - a) / a|)) = some 0 := by
      apply npMean_of_all_zero (hmapne _)
      intro x hx
      obtain ⟨a, _, rfl⟩ := List.mem_map.mp hx
      simp
    rw [h0]
    norm_num
  · unfold dirAccPctQ dirAccQ signMatches
    rw [List.zipWith_same]
    have hd : consecDiffs t ≠ [] := by
      have hl : (consecDiffs t).length = t.length - 1 := by
        unfold consecDiffs
        rw [List.length_zipWith, List.length_drop]
        omega
      intro h0
      rw [h0] at hl
      simp at hl
      omega
    have h1 : npMean ((consecDiffs t).map
        (fun a => if npSign a = npSign a then (1:ℚ) else 0)) = some 1 := by
      apply npMean_of_all_one (by
        intro h
        exact hd (List.map_eq_nil_iff.mp h))
      intro x hx
      obtain ⟨a, _, rfl⟩ := List.mem_map.mp hx
      simp
    rw [h1]
    norm_num
  · unfold pearsonQ
    rw [if_neg hne]
    have hss : s * s ≠ 0 := by
      intro h0
      apply hvar
      rw [← hs, pow_two]
      exact h0
    rw [if_neg hss]
    have hcov : covQ t t = popVarQ t := by
      unfold covQ popVarQ
      rw [List.zipWith_same]
      congr 1
      apply List.map_congr_left
      intro a _
      ring
    rw [hcov, ← hs, pow_two, div_self hss]

/-- Witness for C8: the two-row test split `[1, 3]` with standard
deviation `1` and predictions equal to the labels. -/
theorem C8_witness :
    maeQ [1, 3] [1, 3] = some 0 ∧ mseQ [1, 3] [1, 3] = some 0 ∧
    mapeQ [1, 3] [1, 3] = some 0 ∧ dirAccPctQ [1, 3] [1, 3] = some 100 ∧
    pearsonQ [1, 3] [1, 3] 1 1 = some 1 :=
  C8_perfect_predictions [1, 3] 1 (by decide) (by decide) (by decide)
    (by decide)

/-- C8 counterexample: the constant test split `[2, 2]` has every label
nonzero and predictions identical to the truths, yet the information
coefficient is `NaN` (zero variance inside `np.corrcoef`), not `1.0`. -/
theorem C8_counterexample :
    pearsonQ [(2:ℚ), 2] [2, 2] 0 0 ≠ some 1 ∧
    pearsonQ [(2:ℚ), 2] [2, 2] 0 0 = none ∧
    (0:ℚ) ^ 2 = popVarQ [(2:ℚ), 2] ∧ (0:ℚ) ∉ [(2:ℚ), 2] := by decide

/-- C9: the un-normalized label vector produced by `nx_to_pyg_data`
equals column index 1 (the `daily_return` column) of the un-normalized
feature matrix, row for row: the prediction target is also included
verbatim as an input feature. -/
theorem C9_labels_equal_feature_column_one (g : NxGraph) (d : PygData)
    (h : nx_to_pyg_data g = .ok d) :
    d.y = d.x.map (fun row => row.getD 1 0) := by
  unfold nx_to_pyg_data at h
  cases he : encodeEdges (nodeMapping g) g.edges with
  | error err => rw [he] at h; exact absurd h (by simp)
  | ok ei =>
    rw [he] at h
    simp only [Except.ok.injEq] at h
    rw [← h]
    simp only [List.map_map]
    apply List.map_congr_left
    intro nd _
    rfl

/-- Witness for C9: a two-node graph with distinct attribute values:
the labels `[5, 0]` coincide with entry 1 of each feature row. -/
theorem C9_witness :
    ([(5:ℚ), 0] : List ℚ) =
      ([[0, 5, 0, 7, 0], [0, 0, 0, 0, 2]] : List (List ℚ)).map
        (fun row => row.getD 1 0) :=
  C9_labels_equal_feature_column_one
    ⟨[("A", [("daily_return", 5), ("volatility", 7)]),
      ("B", [("momentum", 2)])], []⟩
    ⟨[[0, 5, 0, 7, 0], [0, 0, 0, 0, 2]], [], [5, 0]⟩ (by decide)

/-- C10: `split_data` accepts no seed parameter and hard-codes
`random_state=42` into both of its `train_test_split` calls, so its
result depends only on the node count and the ratio arguments: the
ambient process random state (`env`, standing for any caller-intended
seeding across runs) never influences the returned index sets. -/
theorem C10_split_data_ignores_ambient_seed (env env' n : Nat)
    (r₁ r₂ : ℚ) :
    split_data env n r₁ r₂ = split_data env' n r₁ r₂ := rfl

end Gcn
